import Mathlib

/-!
Verification of `LSTSAUG/ClassifierModelFCN.py`.

A shallow embedding of the FCN classifier training code and proofs about it.

Conventions of the embedding:
* Real-valued quantities (losses, accuracies, f1 scores) are rationals.
* The per-epoch validation outcomes of `train_classifier` are abstracted as
  sequences `accs f1s : ℕ → ℚ` (the accuracy and f1 that `validate` returns
  at each zero-based epoch); the control flow of the loop is embedded exactly.
* The Python `logs` dict is embedded as a partial map `String → Option ℚ`.
* Fallible computations (division by a zero count) return `Option`.
-/

namespace ClassifierFCN

/-! ## The early-stopping state of `train_classifier` (lines 150-152)

`best_acc`/`best_f1` start at 0, `early_stop_counter` at 0. -/

structure LoopState where
  best_acc : ℚ
  best_f1 : ℚ
  counter : ℕ
deriving Repr, DecidableEq

/-- One epoch's bookkeeping (lines 167-175): if the epoch's test accuracy
strictly exceeds `best_acc`, record the new best pair and reset the stall
counter; otherwise increment the counter and signal a break when it reaches
the patience threshold. The second component is `true` iff the `break` on
line 175 fires. -/
def epochStep (patience : ℕ) (acc f1 : ℚ) (s : LoopState) : LoopState × Bool :=
  if acc > s.best_acc then
    (⟨acc, f1, 0⟩, false)
  else
    (⟨s.best_acc, s.best_f1, s.counter + 1⟩, decide (s.counter + 1 ≥ patience))

/-- The epoch loop (lines 154-175) over an explicit list of epoch indices.
Returns the final state together with `some e` when the early-stop `break`
fired at zero-based epoch `e`, and `none` when the epoch list was exhausted. -/
def runEpochs (accs f1s : ℕ → ℚ) (patience : ℕ) :
    List ℕ → LoopState → LoopState × Option ℕ
  | [], s => (s, none)
  | e :: rest, s =>
    match epochStep patience (accs e) (f1s e) s with
    | (s', true) => (s', some e)
    | (s', false) => runEpochs accs f1s patience rest s'

/-- Key under which a run records its best accuracy (line 178). -/
def logKeyAcc (name : String) : String := name ++ "_best_acc"

/-- Key under which a run records its best f1 (line 179). -/
def logKeyF1 (name : String) : String := name ++ "_best_f1"

/-- A single dict assignment `logs[k] = v`. -/
def setLog (logs : String → Option ℚ) (k : String) (v : ℚ) : String → Option ℚ :=
  fun k' => if k' = k then some v else logs k'

structure TrainResult where
  state : LoopState
  earlyStop : Option ℕ
  logs : String → Option ℚ

/-- The function `train_classifier` (lines 139-188), with the wandb / printing / model
saving side effects dropped and per-epoch validation outcomes given by the
sequences `accs`, `f1s`: run `NUM_EPOCHS` epochs (zero-based, stopping early
when the stall counter reaches `EARLY_STOP_PATIENCE`), then write the best
accuracy and best f1 into `logs` under the two name-derived keys. -/
def train_classifier (accs f1s : ℕ → ℚ) (numEpochs patience : ℕ)
    (logs : String → Option ℚ) (name : String) : TrainResult :=
  let r := runEpochs accs f1s patience (List.range numEpochs) ⟨0, 0, 0⟩
  ⟨r.1, r.2,
    setLog (setLog logs (logKeyAcc name) r.1.best_acc) (logKeyF1 name) r.1.best_f1⟩

/-- Number of epochs whose body actually ran: a break at zero-based epoch `e`
means `e + 1` epochs executed; no break means all `numEpochs` did. -/
def epochsRun (numEpochs : ℕ) : Option ℕ → ℕ
  | some e => e + 1
  | none => numEpochs

/-! ## General lemmas about the epoch loop -/

theorem runEpochs_append (accs f1s : ℕ → ℚ) (p : ℕ) (l₁ l₂ : List ℕ) (s : LoopState) :
    runEpochs accs f1s p (l₁ ++ l₂) s =
      match runEpochs accs f1s p l₁ s with
      | (s', some e) => (s', some e)
      | (s', none) => runEpochs accs f1s p l₂ s' := by
  induction l₁ generalizing s with
  | nil => simp [runEpochs]
  | cons e rest ih =>
    simp only [List.cons_append, runEpochs]
    rcases epochStep p (accs e) (f1s e) s with ⟨s', b⟩
    cases b <;> simp [ih]

/-- An improving epoch records the new best pair, resets the counter, and
continues. -/
theorem runEpochs_cons_improve (accs f1s : ℕ → ℚ) (p e : ℕ) (rest : List ℕ)
    (s : LoopState) (h : s.best_acc < accs e) :
    runEpochs accs f1s p (e :: rest) s =
      runEpochs accs f1s p rest ⟨accs e, f1s e, 0⟩ := by
  simp only [runEpochs, epochStep, gt_iff_lt, if_pos h]

/-- A non-improving epoch that exhausts the patience breaks out of the loop. -/
theorem runEpochs_cons_break (accs f1s : ℕ → ℚ) (p e : ℕ) (rest : List ℕ)
    (s : LoopState) (h : ¬ s.best_acc < accs e) (hp : p ≤ s.counter + 1) :
    runEpochs accs f1s p (e :: rest) s =
      (⟨s.best_acc, s.best_f1, s.counter + 1⟩, some e) := by
  simp only [runEpochs, epochStep, gt_iff_lt, if_neg h, ge_iff_le,
    decide_eq_true hp]

/-- A non-improving epoch below the patience threshold just bumps the
counter and continues. -/
theorem runEpochs_cons_stall (accs f1s : ℕ → ℚ) (p e : ℕ) (rest : List ℕ)
    (s : LoopState) (h : ¬ s.best_acc < accs e) (hp : ¬ p ≤ s.counter + 1) :
    runEpochs accs f1s p (e :: rest) s =
      runEpochs accs f1s p rest ⟨s.best_acc, s.best_f1, s.counter + 1⟩ := by
  simp only [runEpochs, epochStep, gt_iff_lt, if_neg h, ge_iff_le,
    decide_eq_false hp]

/-- While the accuracy keeps strictly improving, every epoch takes the
improvement branch: after epochs `a, a+1, …, a+n` the state holds the pair
from epoch `a+n` with a zero stall counter, and no break has fired. -/
theorem runEpochs_climb (accs f1s : ℕ → ℚ) (p : ℕ) :
    ∀ (n a : ℕ) (s : LoopState), s.best_acc < accs a →
    (∀ i, a ≤ i → i < a + n → accs i < accs (i + 1)) →
    runEpochs accs f1s p (List.range' a (n + 1)) s =
      (⟨accs (a + n), f1s (a + n), 0⟩, none)
  | 0, a, s, himp, _ => by
    rw [List.range'_one, runEpochs_cons_improve accs f1s p a [] s himp]
    simp [runEpochs]
  | n + 1, a, s, himp, hmono => by
    rw [List.range'_succ, runEpochs_cons_improve accs f1s p a _ s himp]
    have h1 : accs a < accs (a + 1) := hmono a le_rfl (by omega)
    have hrec := runEpochs_climb accs f1s p n (a + 1) ⟨accs a, f1s a, 0⟩ h1
      (fun i hi1 hi2 => hmono i (by omega) (by omega))
    rw [hrec]
    have he : a + 1 + n = a + (n + 1) := by omega
    rw [he]

/-- Once no epoch improves on `best_acc` any more, the stall counter climbs
by one per epoch and the break fires exactly when it reaches the patience:
starting from a state whose counter is `p - (n + 1)`, the loop stops at
epoch `a + n` with the best pair untouched. -/
theorem runEpochs_stall (accs f1s : ℕ → ℚ) (p : ℕ) :
    ∀ (n m a : ℕ) (s : LoopState), s.counter + (n + 1) = p → n + 1 ≤ m →
    (∀ i, a ≤ i → i < a + (n + 1) → ¬ s.best_acc < accs i) →
    runEpochs accs f1s p (List.range' a m) s =
      (⟨s.best_acc, s.best_f1, p⟩, some (a + n))
  | 0, m, a, s, hc, hm, hni => by
    obtain ⟨m', rfl⟩ : ∃ m', m = m' + 1 := ⟨m - 1, by omega⟩
    rw [List.range'_succ,
      runEpochs_cons_break accs f1s p a _ s (hni a le_rfl (by omega)) (by omega)]
    have h1 : s.counter + 1 = p := by omega
    rw [h1, Nat.add_zero]
  | n + 1, m, a, s, hc, hm, hni => by
    obtain ⟨m', rfl⟩ : ∃ m', m = m' + 1 := ⟨m - 1, by omega⟩
    rw [List.range'_succ,
      runEpochs_cons_stall accs f1s p a _ s (hni a le_rfl (by omega)) (by omega)]
    have hrec := runEpochs_stall accs f1s p n m' (a + 1)
      ⟨s.best_acc, s.best_f1, s.counter + 1⟩
      (by simp only []; omega) (by omega)
      (fun i hi1 hi2 => hni i (by omega) (by omega))
    rw [hrec]
    have he : a + 1 + n = a + (n + 1) := by omega
    rw [he]

/-- From "non-increasing from `k` on" to "everything from `k` on is at most
the value at `k`". -/
theorem accs_le_of_nonincreasing (accs : ℕ → ℚ) (k : ℕ)
    (hdec : ∀ i, k ≤ i → accs (i + 1) ≤ accs i) :
    ∀ i, k ≤ i → accs i ≤ accs k := by
  have key : ∀ d, accs (k + d) ≤ accs k := by
    intro d
    induction d with
    | zero => simp
    | succ d ih => exact le_trans (hdec (k + d) (by omega)) ih
  intro i hi
  have : i = k + (i - k) := by omega
  rw [this]
  exact key (i - k)

/-! ## Early stopping (claims C1, C3, C6) -/

/-- Splitting the epoch range at `k + 1`. -/
theorem range_split (k N : ℕ) (h : k + 1 ≤ N) :
    List.range N = List.range' 0 (k + 1) ++ List.range' (k + 1) (N - (k + 1)) := by
  have happ := List.range'_append 0 (k + 1) (N - (k + 1)) 1
  rw [List.range_eq_range']
  simp only [Nat.one_mul, Nat.zero_add] at happ
  rw [happ]
  congr 1
  omega

/-- The validation-accuracy sequence for the counterexample to claim C1 as
stated: `1/2` at epoch 0, then constantly `2/5`.  It strictly improves up to
epoch `k = 0` (vacuously) and is non-increasing afterwards (see
`accsCe1_nonincreasing`), and `NUM_EPOCHS = 2 > k + P` for `P = 0`. -/
def accsCe1 : ℕ → ℚ := fun i => if i = 0 then 1/2 else 2/5

/-- The sequence `accsCe1` satisfies the claim's monotonicity premise with `k = 0`. -/
theorem accsCe1_nonincreasing : ∀ i, accsCe1 (i + 1) ≤ accsCe1 i := by
  intro i
  by_cases h : i = 0
  · simp [accsCe1, h]
    norm_num
  · simp [accsCe1, h]

/-- C1 (counterexample): with patience `P = 0`, `k = 0`, `NUM_EPOCHS = 2`
and the sequence `accsCe1` (which satisfies every premise of the claim,
cf. `accsCe1_nonincreasing`), the code does not exit at epoch `k + P = 0`:
epoch 0 improves on the initial best of 0, so the stall counter is first
checked at epoch 1, where `1 ≥ 0` fires the break.  The loop exits at
epoch 1, not epoch 0. -/
theorem early_stop_patience_zero_cex :
    (train_classifier accsCe1 (fun _ => 0) 2 0 (fun _ => none) "classifier").earlyStop
      = some 1 ∧ some (1 : ℕ) ≠ some (0 + 0 : ℕ) := by
  constructor
  · norm_num [train_classifier, runEpochs, epochStep, accsCe1, List.range_succ]
  · decide

/-- C1 (amended): assume additionally that the patience `P` is at least 1 and
that the epoch-0 accuracy is positive (so that epoch 0 improves on the
initial best of 0).  Then for every validation accuracy sequence that
strictly improves up to epoch `k` and is non-increasing from epoch `k` on,
with `NUM_EPOCHS > k + P`, `train_classifier` exits via the early-stop break
exactly at zero-based epoch `k + P`, and the recorded best accuracy is the
value at epoch `k`. -/
theorem early_stop_exact (accs f1s : ℕ → ℚ) (k P N : ℕ)
    (logs : String → Option ℚ) (name : String)
    (hP : 1 ≤ P) (h0 : 0 < accs 0)
    (hmono : ∀ i, i < k → accs i < accs (i + 1))
    (hdec : ∀ i, k ≤ i → accs (i + 1) ≤ accs i)
    (hN : k + P < N) :
    (train_classifier accs f1s N P logs name).earlyStop = some (k + P) ∧
    (train_classifier accs f1s N P logs name).state.best_acc = accs k := by
  have hsplit := range_split k N (by omega)
  have hclimb := runEpochs_climb accs f1s P k 0 ⟨0, 0, 0⟩ h0
    (fun i hi1 hi2 => hmono i (by omega))
  have hle := accs_le_of_nonincreasing accs k hdec
  have hstall := runEpochs_stall accs f1s P (P - 1) (N - (k + 1)) (k + 1)
    ⟨accs k, f1s k, 0⟩ (by simp only []; omega) (by omega)
    (fun i hi1 hi2 => not_lt.mpr (hle i (by omega)))
  simp only [Nat.zero_add] at hclimb
  have hrun : runEpochs accs f1s P (List.range N) ⟨0, 0, 0⟩ =
      (⟨accs k, f1s k, P⟩, some (k + 1 + (P - 1))) := by
    rw [hsplit, runEpochs_append, hclimb]
    exact hstall
  have he : k + 1 + (P - 1) = k + P := by omega
  rw [he] at hrun
  simp [train_classifier, hrun]

/-- Accuracy sequence for the witness to `early_stop_exact`: `1/2, 3/4`
then constantly `1/2` (so `k = 1`). -/
def accsW1 : ℕ → ℚ := fun i => if i = 1 then 3/4 else 1/2

/-- Witness for `early_stop_exact`: with `accsW1`, `k = 1`, `P = 1`,
`NUM_EPOCHS = 3`, the loop stops early at epoch `k + P = 2` with best
accuracy `accsW1 1 = 3/4`. -/
theorem early_stop_exact_witness :
    (train_classifier accsW1 (fun _ => 0) 3 1 (fun _ => none) "classifier").earlyStop
      = some (1 + 1) ∧
    (train_classifier accsW1 (fun _ => 0) 3 1 (fun _ => none) "classifier").state.best_acc
      = accsW1 1 :=
  early_stop_exact accsW1 (fun _ => 0) 1 1 3 (fun _ => none) "classifier"
    (by norm_num)
    (by norm_num [accsW1])
    (by intro i hi; have : i = 0 := by omega
        subst this; norm_num [accsW1])
    (by intro i hi
        have h0 : i ≠ 0 := by omega
        by_cases h : i = 1
        · simp [accsW1, h]
          norm_num
        · simp [accsW1, h, h0])
    (by norm_num)

/-- The concrete validation-accuracy sequence of claim C3:
`0.7, 0.6, 0.5, 0.5, 0.5`. -/
def accsC3 : ℕ → ℚ := fun i => [7/10, 6/10, 5/10, 5/10, 5/10].getD i 0

/-- C3 (counterexample): on the sequence `0.7, 0.6, 0.5, 0.5, 0.5` with
patience 2 and 5 epochs, the break fires at zero-based epoch 2 (the stall
counter reaches 2 there: epoch 1 and epoch 2 both fail to improve on 0.7),
not at zero-based epoch 3 as the claim states. -/
theorem early_stop_scenario_C3_cex :
    (train_classifier accsC3 (fun _ => 0) 5 2 (fun _ => none) "classifier").earlyStop
      = some 2 ∧ some (2 : ℕ) ≠ some (3 : ℕ) := by
  constructor
  · norm_num [train_classifier, runEpochs, epochStep, accsC3, List.range_succ]
  · decide

/-- C3 (amended): on the sequence `0.7, 0.6, 0.5, 0.5, 0.5` with patience 2
and `NUM_EPOCHS = 5`, early stopping triggers at zero-based epoch 2 (i.e.
after the third epoch has run), and the recorded best accuracy is 0.7. -/
theorem early_stop_scenario_C3 :
    (train_classifier accsC3 (fun _ => 0) 5 2 (fun _ => none) "classifier").earlyStop
      = some 2 ∧
    (train_classifier accsC3 (fun _ => 0) 5 2 (fun _ => none) "classifier").state.best_acc
      = 7/10 := by
  norm_num [train_classifier, runEpochs, epochStep, accsC3, List.range_succ]

/-- The concrete validation-accuracy sequence of claim C6:
`0.8, 0.8, 0.8, 0.9`. -/
def accsC6 : ℕ → ℚ := fun i => [8/10, 8/10, 8/10, 9/10].getD i 0

/-- C6: with `NUM_EPOCHS = 4`, patience 3 and validation accuracies
`0.8, 0.8, 0.8, 0.9`, the loop runs all 4 epochs (the stall counter reaches
at most 2, below the patience), no early stop fires, and the recorded best
accuracy is 0.9. -/
theorem no_early_stop_scenario_C6 :
    (train_classifier accsC6 (fun _ => 0) 4 3 (fun _ => none) "classifier").earlyStop
      = none ∧
    (train_classifier accsC6 (fun _ => 0) 4 3 (fun _ => none) "classifier").state.best_acc
      = 9/10 := by
  norm_num [train_classifier, runEpochs, epochStep, accsC6, List.range_succ]

/-! ## The two log keys of a run (claims C7, C10) -/

theorem string_append_right_cancel (a b s : String) (h : a ++ s = b ++ s) : a = b := by
  have hd := congrArg String.data h
  simp only [String.data_append] at hd
  exact String.ext (List.append_cancel_right hd)

theorem logKeyAcc_injective (n1 n2 : String) (h : logKeyAcc n1 = logKeyAcc n2) :
    n1 = n2 :=
  string_append_right_cancel n1 n2 "_best_acc" h

theorem logKeyF1_injective (n1 n2 : String) (h : logKeyF1 n1 = logKeyF1 n2) :
    n1 = n2 :=
  string_append_right_cancel n1 n2 "_best_f1" h

/-- A `_best_acc` key never collides with a `_best_f1` key, whatever the two
run names are: the last characters differ. -/
theorem logKeyAcc_ne_logKeyF1 (n1 n2 : String) : logKeyAcc n1 ≠ logKeyF1 n2 := by
  intro h
  have hd := congrArg String.data h
  simp only [logKeyAcc, logKeyF1, String.data_append] at hd
  have h2 := congrArg List.getLast? hd
  simp [List.getLast?_append] at h2

/-- C7: `train_classifier` writes `some best_acc` under `name ++ "_best_acc"`
and `some best_f1` under `name ++ "_best_f1"`, leaves every other key of the
logs mapping untouched, and the key pairs of two runs with distinct names
are fully disjoint (so sequential runs never overwrite each other). -/
theorem logs_frame (accs f1s : ℕ → ℚ) (N P : ℕ) (logs : String → Option ℚ)
    (name : String) :
    (train_classifier accs f1s N P logs name).logs (logKeyAcc name)
      = some (train_classifier accs f1s N P logs name).state.best_acc ∧
    (train_classifier accs f1s N P logs name).logs (logKeyF1 name)
      = some (train_classifier accs f1s N P logs name).state.best_f1 ∧
    (∀ k, k ≠ logKeyAcc name → k ≠ logKeyF1 name →
      (train_classifier accs f1s N P logs name).logs k = logs k) ∧
    (∀ n1 n2 : String, n1 ≠ n2 →
      logKeyAcc n1 ≠ logKeyAcc n2 ∧ logKeyAcc n1 ≠ logKeyF1 n2 ∧
      logKeyF1 n1 ≠ logKeyAcc n2 ∧ logKeyF1 n1 ≠ logKeyF1 n2) := by
  refine ⟨?_, ?_, ?_, ?_⟩
  · simp [train_classifier, setLog, logKeyAcc_ne_logKeyF1 name name]
  · simp [train_classifier, setLog]
  · intro k hk1 hk2
    simp [train_classifier, setLog, hk1, hk2]
  · intro n1 n2 hne
    exact ⟨fun h => hne (logKeyAcc_injective n1 n2 h),
      logKeyAcc_ne_logKeyF1 n1 n2,
      fun h => logKeyAcc_ne_logKeyF1 n2 n1 h.symm,
      fun h => hne (logKeyF1_injective n1 n2 h)⟩

/-- Witness for `logs_frame` at a concrete instance: a key different from
both written keys keeps its previous value, and the keys of runs named
`"a"` and `"b"` do not collide. -/
theorem logs_frame_witness :
    (train_classifier (fun _ => 0) (fun _ => 0) 1 1 (fun _ => some 1) "a").logs "z"
      = some 1 ∧
    logKeyAcc "a" ≠ logKeyAcc "b" ∧ logKeyAcc "a" ≠ logKeyF1 "b" :=
  ⟨(logs_frame (fun _ => 0) (fun _ => 0) 1 1 (fun _ => some 1) "a").2.2.1 "z"
      (by simp [logKeyAcc]) (by simp [logKeyF1]),
    ((logs_frame (fun _ => 0) (fun _ => 0) 1 1 (fun _ => some 1) "a").2.2.2 "a" "b"
      (by simp)).1,
    ((logs_frame (fun _ => 0) (fun _ => 0) 1 1 (fun _ => some 1) "a").2.2.2 "a" "b"
      (by simp)).2.1⟩

/-! ## All-zero accuracy runs (claim C10) -/

/-- C10 (counterexample): with `EARLY_STOP_PATIENCE = 0`, `NUM_EPOCHS = 1`
and every test accuracy equal to 0 (so `NUM_EPOCHS ≥ EARLY_STOP_PATIENCE`),
the loop does not stop "after exactly 0 epochs": the stall counter is only
checked inside an epoch body, so epoch 0 runs, its counter check `1 ≥ 0`
fires, and exactly one epoch has executed. -/
theorem all_zero_patience_zero_cex :
    epochsRun 1
      (train_classifier (fun _ => 0) (fun _ => 0) 1 0 (fun _ => none) "classifier").earlyStop
      = 1 ∧ (1 : ℕ) ≠ 0 := by
  constructor
  · norm_num [train_classifier, runEpochs, epochStep, epochsRun, List.range_succ]
  · decide

/-- C10 (amended): an epoch with test accuracy 0 never improves on a
non-negative best (the comparison is strict and `best_acc` starts at 0), so
when every epoch's test accuracy is 0 and `1 ≤ EARLY_STOP_PATIENCE ≤
NUM_EPOCHS`, the break fires at zero-based epoch `PATIENCE - 1` — exactly
`PATIENCE` epochs run — and the logs record best accuracy 0 and best f1 0.
With `NUM_EPOCHS = 0` the loop body never runs and the logs still record 0
and 0. -/
theorem all_zero_accuracy_run (f1s : ℕ → ℚ) (N P : ℕ)
    (logs : String → Option ℚ) (name : String) (hP : 1 ≤ P) (hNP : P ≤ N) :
    (∀ (p : ℕ) (f1 : ℚ) (s : LoopState), 0 ≤ s.best_acc →
      (epochStep p 0 f1 s).1.best_acc = s.best_acc ∧
      (epochStep p 0 f1 s).1.counter = s.counter + 1) ∧
    (train_classifier (fun _ => 0) f1s N P logs name).earlyStop = some (P - 1) ∧
    epochsRun N (train_classifier (fun _ => 0) f1s N P logs name).earlyStop = P ∧
    (train_classifier (fun _ => 0) f1s N P logs name).logs (logKeyAcc name) = some 0 ∧
    (train_classifier (fun _ => 0) f1s N P logs name).logs (logKeyF1 name) = some 0 ∧
    (train_classifier (fun _ => 0) f1s 0 P logs name).earlyStop = none ∧
    (train_classifier (fun _ => 0) f1s 0 P logs name).logs (logKeyAcc name) = some 0 ∧
    (train_classifier (fun _ => 0) f1s 0 P logs name).logs (logKeyF1 name) = some 0 := by
  have hstep : ∀ (p : ℕ) (f1 : ℚ) (s : LoopState), 0 ≤ s.best_acc →
      (epochStep p 0 f1 s).1.best_acc = s.best_acc ∧
      (epochStep p 0 f1 s).1.counter = s.counter + 1 := by
    intro p f1 s hs
    simp [epochStep, not_lt.mpr hs]
  have hrun : runEpochs (fun _ => 0) f1s P (List.range N) ⟨0, 0, 0⟩ =
      (⟨0, 0, P⟩, some (0 + (P - 1))) := by
    rw [List.range_eq_range']
    exact runEpochs_stall (fun _ => 0) f1s P (P - 1) N 0 ⟨0, 0, 0⟩
      (by simp only []; omega) (by omega) (fun i _ _ => by simp)
  simp only [Nat.zero_add] at hrun
  have hP1 : logKeyAcc name ≠ logKeyF1 name := logKeyAcc_ne_logKeyF1 name name
  refine ⟨hstep, ?_, ?_, ?_, ?_, ?_, ?_, ?_⟩ <;>
    simp [train_classifier, hrun, epochsRun, setLog, hP1, runEpochs]
  omega

/-- Witness for `all_zero_accuracy_run` at `P = 2`, `N = 3`: the break fires
at zero-based epoch 1, i.e. after exactly 2 epochs, and both log entries
are 0. -/
theorem all_zero_accuracy_run_witness :
    (train_classifier (fun _ => 0) (fun _ => 0) 3 2 (fun _ => none) "classifier").earlyStop
      = some (2 - 1) ∧
    (train_classifier (fun _ => 0) (fun _ => 0) 3 2 (fun _ => none) "classifier").logs
      (logKeyAcc "classifier") = some 0 :=
  ⟨(all_zero_accuracy_run (fun _ => 0) 3 2 (fun _ => none) "classifier"
      (by decide) (by decide)).2.1,
    (all_zero_accuracy_run (fun _ => 0) 3 2 (fun _ => none) "classifier"
      (by decide) (by decide)).2.2.2.1⟩

/-! ## Characterization of best-value updates (claim C8) -/

/-- The concrete sequences demonstrating that the recorded best f1 need not
be the maximum f1 observed: accuracies `0.5, 0.9`, f1 scores `0.9, 0.3`. -/
def accsC8 : ℕ → ℚ := fun i => [1/2, 9/10].getD i 0

def f1sC8 : ℕ → ℚ := fun i => [9/10, 3/10].getD i 0

/-- C8: (i) an epoch updates the best pair — and resets the stall counter —
exactly when its test accuracy strictly exceeds the best seen, and otherwise
leaves the best pair untouched and increments the counter; (ii) hence at the
end of any run from the initial state the best pair is either still `(0, 0)`
or the `(accuracy, f1)` pair of a single processed epoch — the one whose
accuracy set the final best; (iii) in particular, on accuracies `0.5, 0.9`
with f1 scores `0.9, 0.3`, the recorded best f1 is `0.3` — the f1 paired
with the best accuracy — which is smaller than the maximum observed f1
`0.9`. -/
theorem best_pair_update_characterization :
    (∀ (p : ℕ) (acc f1 : ℚ) (s : LoopState),
      (s.best_acc < acc ↔ (epochStep p acc f1 s).1 = ⟨acc, f1, 0⟩) ∧
      (¬ s.best_acc < acc ↔
        (epochStep p acc f1 s).1 = ⟨s.best_acc, s.best_f1, s.counter + 1⟩)) ∧
    (∀ (accs f1s : ℕ → ℚ) (p : ℕ) (l : List ℕ),
      ((runEpochs accs f1s p l ⟨0, 0, 0⟩).1.best_acc = 0 ∧
        (runEpochs accs f1s p l ⟨0, 0, 0⟩).1.best_f1 = 0) ∨
      ∃ e ∈ l, (runEpochs accs f1s p l ⟨0, 0, 0⟩).1.best_acc = accs e ∧
        (runEpochs accs f1s p l ⟨0, 0, 0⟩).1.best_f1 = f1s e) ∧
    ((train_classifier accsC8 f1sC8 2 5 (fun _ => none) "classifier").state.best_acc
        = 9/10 ∧
      (train_classifier accsC8 f1sC8 2 5 (fun _ => none) "classifier").state.best_f1
        = 3/10 ∧
      (3 : ℚ)/10 < f1sC8 0) := by
  refine ⟨?_, ?_, ?_⟩
  · intro p acc f1 s
    constructor
    · constructor
      · intro h
        simp [epochStep, h]
      · intro h
        by_contra hc
        simp [epochStep, hc] at h
    · constructor
      · intro h
        simp [epochStep, h]
      · intro h
        by_contra hc
        simp [epochStep, hc] at h
  · intro accs f1s p l
    suffices haux : ∀ (l : List ℕ) (s : LoopState),
        ((runEpochs accs f1s p l s).1.best_acc = s.best_acc ∧
          (runEpochs accs f1s p l s).1.best_f1 = s.best_f1) ∨
        ∃ e ∈ l, (runEpochs accs f1s p l s).1.best_acc = accs e ∧
          (runEpochs accs f1s p l s).1.best_f1 = f1s e by
      exact haux l ⟨0, 0, 0⟩
    intro l
    induction l with
    | nil => intro s; left; simp [runEpochs]
    | cons e rest ih =>
      intro s
      by_cases himp : s.best_acc < accs e
      · rw [runEpochs_cons_improve accs f1s p e rest s himp]
        rcases ih ⟨accs e, f1s e, 0⟩ with ⟨h1, h2⟩ | ⟨e', he', h1, h2⟩
        · exact Or.inr ⟨e, by simp, h1, h2⟩
        · exact Or.inr ⟨e', by simp [he'], h1, h2⟩
      · by_cases hbrk : p ≤ s.counter + 1
        · rw [runEpochs_cons_break accs f1s p e rest s himp hbrk]
          left
          simp
        · rw [runEpochs_cons_stall accs f1s p e rest s himp hbrk]
          rcases ih ⟨s.best_acc, s.best_f1, s.counter + 1⟩ with ⟨h1, h2⟩ | ⟨e', he', h1, h2⟩
          · left
            simpa using ⟨h1, h2⟩
          · exact Or.inr ⟨e', by simp [he'], h1, h2⟩
  · refine ⟨?_, ?_, ?_⟩ <;>
      norm_num [train_classifier, runEpochs, epochStep, accsC8, f1sC8, List.range_succ]

/-! ## `train_epoch` (lines 97-119; claims C2, C9)

One epoch's forward values are modelled as data: an example carries the
loss value the criterion assigns it (its mean-over-classes
`BCEWithLogitsLoss` contribution, a rational) together with its prediction
and target rows.  `nn.BCEWithLogitsLoss()` uses the default `'mean'`
reduction, so one batch's `loss.item()` is the mean over the batch's
`B × C` elements — i.e. the mean of the per-example loss values. -/

structure TrainExample where
  loss : ℚ
  pred : List ℚ
  tgt : List ℚ
deriving Repr, DecidableEq

/-- Index of the first maximal element (`torch.argmax` over a row;
on an empty row we return 0, a case the code never hits). -/
def argmaxAux : List ℚ → ℕ → ℕ → ℚ → ℕ
  | [], _, bi, _ => bi
  | x :: xs, i, bi, bv => if bv < x then argmaxAux xs (i + 1) i x else argmaxAux xs (i + 1) bi bv

def argmaxIdx : List ℚ → ℕ
  | [] => 0
  | x :: xs => argmaxAux xs 1 0 x

/-- Whether `argmax(output, dim=1) == argmax(y, dim=1)` for one example (line 111). -/
def isCorrect (e : TrainExample) : Bool :=
  argmaxIdx e.pred == argmaxIdx e.tgt

/-- The per-batch `acc.item()` of line 111: number of matching argmaxes. -/
def countCorrect (es : List TrainExample) : ℕ := es.countP isCorrect

/-- One batch's `loss.item()` (line 113): the `'mean'`-reduction BCE value,
i.e. the mean of the per-example losses. -/
def batchLoss (b : List TrainExample) : ℚ :=
  (b.map TrainExample.loss).sum / (b.length : ℚ)

/-- The function `train_epoch` (lines 97-119): accumulate `loss.item()`, the match count
and `len(y)` over the batches, then return
`(train_loss / total, correct / total)`.  When `total = 0` the Python
division raises `ZeroDivisionError`; we return `none` there. -/
def train_epoch (batches : List (List TrainExample)) : Option (ℚ × ℚ) :=
  let train_loss := (batches.map batchLoss).sum
  let correct := (batches.map countCorrect).sum
  let total := (batches.map List.length).sum
  if total = 0 then none
  else some (train_loss / (total : ℚ), (correct : ℚ) / (total : ℚ))

/-- Modelled from the spec: the value claim C2 asserts for the first
component of `train_epoch` — the total per-example loss divided by the
total number of examples seen across all batches (a quantity that does not
depend on how the examples are split into batches). -/
def spec_mean_loss_per_example (batches : List (List TrainExample)) : ℚ :=
  (batches.flatten.map TrainExample.loss).sum / (batches.flatten.length : ℚ)

/-- C9: called on an empty iterable of batches, `train_epoch` accumulates a
total example count of 0 and the final `train_loss / total` division fails
(`ZeroDivisionError`); there is no guard for the empty case, so no result
is returned. -/
theorem train_epoch_empty_fails : train_epoch [] = none := rfl

/-- An example with loss 0 whose prediction matches its target. -/
def exA : TrainExample := ⟨0, [1, 0], [1, 0]⟩

/-- An example with loss 1 whose prediction matches its target. -/
def exB : TrainExample := ⟨1, [1, 0], [1, 0]⟩

/-- C2 (counterexample): because each batch contributes its *mean* loss
(`'mean'` reduction), not its summed loss, the first component of
`train_epoch` is not the total loss over examples divided by the example
count, and it changes when the same two examples are re-split into batches:
as one batch of two it is `1/4`, as two singleton batches it is `1/2`
(which is the spec's claimed value).  The accuracy component is 1 in both
splits. -/
theorem train_epoch_mean_loss_cex :
    train_epoch [[exA, exB]] = some (1/4, 1) ∧
    spec_mean_loss_per_example [[exA, exB]] = 1/2 ∧
    ((1 : ℚ)/4) ≠ 1/2 ∧
    train_epoch [[exA], [exB]] = some (1/2, 1) := by
  refine ⟨?_, ?_, by norm_num, ?_⟩ <;>
    norm_num [train_epoch, spec_mean_loss_per_example, batchLoss, countCorrect,
      isCorrect, argmaxIdx, argmaxAux, exA, exB, List.countP, List.countP.go]

/-- C2 (amended): over a non-empty run, `train_epoch` returns as first
component the sum of the per-batch mean losses divided by the total example
count (a split-dependent quantity), and as second component the fraction of
examples whose prediction argmax matches their target argmax — the latter
computed over the flattened example list, hence identical for any two batch
splits of the same examples. -/
theorem train_epoch_aggregation (batches : List (List TrainExample))
    (h : batches.flatten ≠ []) :
    train_epoch batches =
      some ((batches.map batchLoss).sum / (batches.flatten.length : ℚ),
        (countCorrect batches.flatten : ℚ) / (batches.flatten.length : ℚ)) ∧
    ∀ batches' : List (List TrainExample), batches'.flatten = batches.flatten →
      (train_epoch batches').map Prod.snd = (train_epoch batches).map Prod.snd := by
  have hlen : ∀ bs : List (List TrainExample),
      (bs.map List.length).sum = bs.flatten.length := by
    intro bs
    rw [List.length_flatten]
  have hcnt : ∀ bs : List (List TrainExample),
      (bs.map countCorrect).sum = countCorrect bs.flatten := by
    intro bs
    rw [countCorrect, List.countP_flatten]
    rfl
  have htot : batches.flatten.length ≠ 0 :=
    fun h0 => h (List.length_eq_zero.mp h0)
  have hval : ∀ bs : List (List TrainExample), bs.flatten = batches.flatten →
      train_epoch bs = some ((bs.map batchLoss).sum / (batches.flatten.length : ℚ),
        (countCorrect batches.flatten : ℚ) / (batches.flatten.length : ℚ)) := by
    intro bs hbs
    simp only [train_epoch, hlen, hcnt, hbs]
    rw [if_neg htot]
  constructor
  · exact hval batches rfl
  · intro batches' hjoin
    rw [hval batches' hjoin, hval batches rfl]
    rfl

/-- Witness for `train_epoch_aggregation` on the two-example batch
`[[exA, exB]]`: the mean-of-means loss is `1/4` and the accuracy is 1. -/
theorem train_epoch_aggregation_witness :
    train_epoch [[exA, exB]] =
      some (([[exA, exB]].map batchLoss).sum / (([[exA, exB]] : List (List TrainExample)).flatten.length : ℚ),
        (countCorrect ([[exA, exB]] : List (List TrainExample)).flatten : ℚ) /
          (([[exA, exB]] : List (List TrainExample)).flatten.length : ℚ)) :=
  (train_epoch_aggregation [[exA, exB]] (by simp)).1

/-! ## `validate` (lines 121-137; claim C5)

The model is a parameter vector (which, for the shallow embedding, also
carries the batch-norm running statistics) plus the `training` flag that
`self.eval()` / `self.train()` toggle.  The forward pass is an arbitrary
function of the parameters, the mode flag and the input; under
`torch.no_grad()` it mutates nothing.  `f1_score` is external
(`sklearn`), so it is abstracted as an arbitrary function of the two
argmax label lists. -/

structure ModelState (P : Type) where
  params : P
  training : Bool

/-- Rows of `argmax(y_pred, dim=1) == argmax(y, dim=1)` that match. -/
def countMatchRows (preds tgts : List (List ℚ)) : ℕ :=
  (preds.zip tgts).countP fun pr => argmaxIdx pr.1 == argmaxIdx pr.2

/-- The function `validate` (lines 121-137): switch the model to evaluation mode
(`self.eval()` — the only state change), run the forward pass on the stored
parameters, and return the model together with the accuracy fraction and
the f1 score of the predictions. -/
def validate {P ι : Type} (fwd : P → Bool → ι → List (List ℚ))
    (f1fn : List ℕ → List ℕ → ℚ) (m : ModelState P) (x : ι)
    (y : List (List ℚ)) : ModelState P × ℚ × ℚ :=
  let m' : ModelState P := ⟨m.params, false⟩
  let y_pred := fwd m'.params m'.training x
  (m', (countMatchRows y_pred y : ℚ) / (y.length : ℚ),
    f1fn (y.map argmaxIdx) (y_pred.map argmaxIdx))

/-- C5: for every model state, forward function, f1 function and fixed
validation pair, calling `validate` twice in succession returns the same
(accuracy, f1) pair both times, and neither call changes the model
parameters (the only mutation is the `training` flag cleared by
`self.eval()`). -/
theorem validate_idempotent_pure {P ι : Type}
    (fwd : P → Bool → ι → List (List ℚ)) (f1fn : List ℕ → List ℕ → ℚ)
    (m : ModelState P) (x : ι) (y : List (List ℚ)) :
    (validate fwd f1fn (validate fwd f1fn m x y).1 x y).2
      = (validate fwd f1fn m x y).2 ∧
    (validate fwd f1fn m x y).1.params = m.params ∧
    (validate fwd f1fn (validate fwd f1fn m x y).1 x y).1.params = m.params := by
  simp [validate]

/-! ## Forward-pass shapes (lines 38-85; claim C4)

The shape arithmetic of the forward pass, over `(batch, channels, length)`
triples.  Every convolution in this network has stride 1.  `none` encodes a
tensor-shape error. -/

/-- Shape of `nn.Conv1d(inC, outC, kernel, padding=pad)` (stride 1): requires the
channel count to match and the padded length to cover the kernel;
output length is `L + 2·pad - kernel + 1`. -/
def conv1d_shape (inC outC kernel pad : ℕ) : ℕ × ℕ × ℕ → Option (ℕ × ℕ × ℕ)
  | (b, c, l) =>
    if c = inC ∧ kernel ≤ l + 2 * pad then
      some (b, outC, l + 2 * pad - kernel + 1)
    else none

/-- Shape of `nn.BatchNorm1d(C)`: shape-preserving; requires matching channels and,
in training mode, more than one value per channel (`batch · length > 1`). -/
def batchnorm1d_shape (C : ℕ) : ℕ × ℕ × ℕ → Option (ℕ × ℕ × ℕ)
  | (b, c, l) => if c = C ∧ 2 ≤ b * l then some (b, c, l) else none

/-- Shape of `nn.ReLU()`: elementwise, shape-preserving. -/
def relu_shape (s : ℕ × ℕ × ℕ) : Option (ℕ × ℕ × ℕ) := some s

/-- Shape of `FCNBlock` (lines 12-27): conv → batch norm → ReLU. -/
def fcn_block_shape (inC outC kernel pad : ℕ) (s : ℕ × ℕ × ℕ) :
    Option (ℕ × ℕ × ℕ) :=
  conv1d_shape inC outC kernel pad s >>= batchnorm1d_shape outC >>= relu_shape

/-- Shape of `nn.AdaptiveAvgPool1d(1)`: any positive length collapses to 1. -/
def adaptive_avg_pool1_shape : ℕ × ℕ × ℕ → Option (ℕ × ℕ × ℕ)
  | (b, c, l) => if 1 ≤ l then some (b, c, 1) else none

/-- Shape of `.squeeze(-1)` as used on line 84: drops the trailing length dimension,
which is 1 after the pooling and the 1×1 convolution. -/
def squeeze_last_shape : ℕ × ℕ × ℕ → Option (ℕ × ℕ)
  | (b, c, l) => if l = 1 then some (b, c) else none

/-- A kernel-3 padding-1 `FCNBlock` preserves any length `l ≥ 2` (lengths
after the first convolution are at least 2 whenever the input is
non-degenerate). -/
theorem fcn_block_shape_preserves (inC outC b l : ℕ) (hb : 1 ≤ b) (hl : 2 ≤ l) :
    fcn_block_shape inC outC 3 1 (b, inC, l) = some (b, outC, l) := by
  have e : l + 2 * 1 - 3 + 1 = l := by omega
  have hmul : 2 ≤ b * l := by
    have h := Nat.le_mul_of_pos_left l hb
    omega
  simp only [fcn_block_shape, conv1d_shape]
  rw [if_pos ⟨trivial, by omega⟩, e]
  simp only [Option.bind_eq_bind, Option.some_bind, batchnorm1d_shape]
  rw [if_pos ⟨trivial, hmul⟩]
  simp only [Option.some_bind, relu_shape]

/-- The shape computed by `Classifier_FCN.forward` (lines 76-85) with the
layers of `__init__` (lines 44-62): conv1(1→64, k8, p4) → bn → relu →
FCNBlock(64→64, k3, p1) → FCNBlock(64→128, k3, p1) →
FCNBlock(128→128, k3, p1) → global average pool → conv(128→nb_classes, k1)
→ squeeze(-1). -/
def classifier_fcn_forward_shape (nb_classes : ℕ) (s : ℕ × ℕ × ℕ) :
    Option (ℕ × ℕ) :=
  conv1d_shape 1 64 8 4 s >>= batchnorm1d_shape 64 >>= relu_shape >>=
    fcn_block_shape 64 64 3 1 >>= fcn_block_shape 64 128 3 1 >>=
    fcn_block_shape 128 128 3 1 >>= adaptive_avg_pool1_shape >>=
    conv1d_shape 128 nb_classes 1 0 >>= squeeze_last_shape

/-- C4: for every batch size `b ≥ 1` and length `L ≥ 1`, the forward pass on
an input of shape `(b, 1, L)` is defined and yields logits of shape
`(b, nb_classes)`, independently of `L`: conv1 maps the length to `L + 1`,
the three blocks preserve it, and the adaptive pool collapses it to 1. -/
theorem forward_shape_length_agnostic (nb_classes b L : ℕ)
    (hb : 1 ≤ b) (hL : 1 ≤ L) :
    classifier_fcn_forward_shape nb_classes (b, 1, L) = some (b, nb_classes) := by
  have e1 : L + 2 * 4 - 8 + 1 = L + 1 := by omega
  have hL1 : 2 ≤ L + 1 := by omega
  have hmul : 2 ≤ b * (L + 1) := by
    have h := Nat.le_mul_of_pos_left (L + 1) hb
    omega
  simp only [classifier_fcn_forward_shape, conv1d_shape]
  rw [if_pos ⟨trivial, by omega⟩, e1]
  simp only [Option.bind_eq_bind, Option.some_bind, batchnorm1d_shape]
  rw [if_pos ⟨trivial, hmul⟩]
  simp only [Option.some_bind, relu_shape]
  rw [fcn_block_shape_preserves 64 64 b (L + 1) hb hL1]
  simp only [Option.some_bind]
  rw [fcn_block_shape_preserves 64 128 b (L + 1) hb hL1]
  simp only [Option.some_bind]
  rw [fcn_block_shape_preserves 128 128 b (L + 1) hb hL1]
  simp only [Option.some_bind, adaptive_avg_pool1_shape]
  rw [if_pos (show 1 ≤ L + 1 by omega)]
  simp only [Option.some_bind, conv1d_shape]
  rw [if_pos ⟨trivial, show 1 ≤ 1 + 2 * 0 by omega⟩]
  simp only [Option.some_bind, squeeze_last_shape]
  simp

/-- Witness for `forward_shape_length_agnostic`: a batch of 2 sequences of
length 5 through a 3-class head. -/
theorem forward_shape_length_agnostic_witness :
    classifier_fcn_forward_shape 3 (2, 1, 5) = some (2, 3) :=
  forward_shape_length_agnostic 3 2 5 (by decide) (by decide)

end ClassifierFCN
